import Mathlib

/-!
Shallow embedding of the per-peer RPC rate limiter
(`node/network/src/rpc/rate_limiter.rs`) and the sync peer table
(`node/sync/src/controllers/peers.rs`) of the 0g-storage-node repository.

Machine integers: all nanosecond quantities in the Rust code are `u64`;
we embed them as `Nat` and apply `% 2 ^ 64` exactly where the Rust
arithmetic wraps (release-mode `u64` addition and multiplication) or
truncates (`as u64` casts).  `u64::saturating_sub` is `Nat` subtraction.

Hash maps (`FnvHashMap`, `HashMap`) are embedded as association lists
with first-match lookup; real hash maps have unique keys, so theorems
that depend on that carry a `Nodup` hypothesis on the key list.
-/

set_option autoImplicit false

namespace ZgStorage

/-- `2 ^ 64`, the modulus of `u64` arithmetic. -/
def u64Size : Nat := 2 ^ 64

/-- First-match lookup in an association list, as a hash-map `get`. -/
def lookupKey {β : Type} : List (Nat × β) → Nat → Option β
  | [], _ => none
  | (k2, v) :: rest, k => if k2 = k then some v else lookupKey rest k

/-- Replace the first binding of `k` (or append one), as a hash-map `insert`. -/
def setKey {β : Type} : List (Nat × β) → Nat → β → List (Nat × β)
  | [], k, v => [(k, v)]
  | (k2, v2) :: rest, k, v =>
    if k2 = k then (k, v) :: rest else (k2, v2) :: setKey rest k v

/-- Outcome of `Limiter::allows`: the Rust `Result<(), RateLimitedErr>`
flattened into one sum, with `TooSoon`'s wait in nanoseconds. -/
inductive AllowsResult where
  | ok
  | tooLarge
  | tooSoon (wait : Nat)
  deriving DecidableEq, Repr

/-- `Quota { replenish_all_every, max_tokens }`; the duration is embedded
as its nanosecond count (`Duration::as_nanos`, a `u128`, never wraps). -/
structure Quota where
  replenishAllEvery : Nat
  maxTokens : Nat
  deriving DecidableEq, Repr

/-- `Limiter<Key>` with `Key` abstracted to `Nat` (peer ids):
GCRA constants `tau`, `t` and the per-key TAT map. -/
structure Limiter where
  tau : Nat
  t : Nat
  tatPerKey : List (Nat × Nat)
  deriving DecidableEq, Repr

/-- `Limiter::from_quota`.  The two `try_into` calls are the `u128 → u64`
range checks, in source order (`t` first, then `tau`). -/
def Limiter.fromQuota (quota : Quota) : Except String Limiter :=
  if quota.maxTokens = 0 then .error "Max number of tokens should be positive"
  else
    let tau := quota.replenishAllEvery
    if tau = 0 then .error "Replenish time must be positive"
    else
      let t := tau / quota.maxTokens
      if t < u64Size then
        if tau < u64Size then .ok { tau := tau, t := t, tatPerKey := [] }
        else .error "total replenish time is too long"
      else .error "total replenish time is too long"

/-- `Limiter::allows(time_since_start, key, tokens)`.  Returns the verdict
together with the updated limiter.  `timeSinceStart` enters through the
`as_nanos() as u64` truncating cast; `t * tokens` and the TAT additions
are wrapping `u64` arithmetic; `saturating_sub` is `Nat` subtraction. -/
def Limiter.allows (l : Limiter) (timeSinceStart : Nat) (key : Nat) (tokens : Nat) :
    AllowsResult × Limiter :=
  let now := timeSinceStart % u64Size
  let additionalTime := l.t * tokens % u64Size
  if l.tau < additionalTime then (.tooLarge, l)
  else
    let tat0 := (lookupKey l.tatPerKey key).getD now
    let m1 := setKey l.tatPerKey key tat0
    let earliestTime := (tat0 + additionalTime) % u64Size - l.tau
    if now < earliestTime then
      (.tooSoon (earliestTime - now), { l with tatPerKey := m1 })
    else
      (.ok, { l with tatPerKey := setKey m1 key ((max now tat0 + additionalTime) % u64Size) })

/-- `Limiter::prune(time_limit)`: retain exactly the keys with `tat ≥ lim`. -/
def Limiter.prune (l : Limiter) (timeLimit : Nat) : Limiter :=
  let lim := timeLimit % u64Size
  { l with tatPerKey := l.tatPerKey.filter fun kv => lim ≤ kv.2 }

/-- `RPCRateLimiter`: one `Limiter` per protocol, fields in source order.
The prune ticker and `init_time` are dropped; elapsed time is passed in. -/
structure RPCRateLimiter where
  goodbyeRl : Limiter
  pingRl : Limiter
  statusRl : Limiter
  dataByHashRl : Limiter
  answerFileRl : Limiter
  getChunksRl : Limiter
  deriving DecidableEq, Repr

/-- `RPCRateLimiter::prune`, exactly as in the source: it prunes the
Ping, Status, Goodbye, DataByHash and GetChunks buckets — and does not
touch `answer_file_rl`. -/
def RPCRateLimiter.prune (r : RPCRateLimiter) (timeSinceStart : Nat) : RPCRateLimiter :=
  { r with
    pingRl := r.pingRl.prune timeSinceStart
    statusRl := r.statusRl.prune timeSinceStart
    goodbyeRl := r.goodbyeRl.prune timeSinceStart
    dataByHashRl := r.dataByHashRl.prune timeSinceStart
    getChunksRl := r.getChunksRl.prune timeSinceStart }

/-- `PeerState` (`node/sync/src/controllers/peers.rs`). -/
inductive PeerState where
  | found
  | connecting
  | connected
  | disconnecting
  | disconnected
  deriving DecidableEq, Repr

/-- `PeerInfo`: `Multiaddr` and `ShardConfig` are abstracted to opaque
`Nat` tags (the code only clones, compares and stores them); `since` is
the instant of the last state change, in abstract clock units. -/
structure PeerInfo where
  addr : Nat
  state : PeerState
  shardConfig : Nat
  since : Nat
  deriving DecidableEq, Repr

/-- The two timeouts of `sync::Config` that `SyncPeers` reads. -/
structure Config where
  peerConnectTimeout : Nat
  peerDisconnectTimeout : Nat
  deriving DecidableEq, Repr

/-- `SyncPeers`: the peer map plus the presence of the two optional
external handles (`ctx`, `file_location_cache`), whose only observable
use in this file is the effects they receive. -/
structure SyncPeers where
  config : Config
  peers : List (Nat × PeerInfo)
  hasCtx : Bool
  hasFileLocationCache : Bool
  deriving DecidableEq, Repr

/-- `network::PeerAction` severities (used here only via `LowToleranceError`). -/
inductive PeerAction where
  | fatal
  | lowToleranceError
  | midToleranceError
  | highToleranceError
  deriving DecidableEq, Repr

/-- Observable external effects of `SyncPeers::transition`, in order:
reputation reports (`ctx.report_peer`), file-location-cache removals
(`cache.remove`), and peer-map removals (`self.peers.remove`). -/
inductive Effect where
  | report (peer : Nat) (action : PeerAction) (reason : String)
  | cacheRemove (peer : Nat)
  | removePeer (peer : Nat)
  deriving DecidableEq, Repr

/-- `PeerInfo::update_state`: set the state and stamp `since` with now. -/
def PeerInfo.updateState (info : PeerInfo) (newState : PeerState) (now : Nat) : PeerInfo :=
  { info with state := newState, since := now }

/-- `SyncPeers::add_new_peer_with_config`; `now` stands for `Instant::now()`. -/
def SyncPeers.addNewPeerWithConfig (sp : SyncPeers) (now peerId addr shardConfig : Nat) :
    Bool × SyncPeers :=
  match lookupKey sp.peers peerId with
  | some info =>
    if info.shardConfig = shardConfig then (false, sp)
    else (true, { sp with peers := setKey sp.peers peerId ⟨addr, .found, shardConfig, now⟩ })
  | none =>
    (true, { sp with peers := setKey sp.peers peerId ⟨addr, .found, shardConfig, now⟩ })

/-- `SyncPeers::update_state` (`from`/`to` renamed: `from` is reserved). -/
def SyncPeers.updateState (sp : SyncPeers) (now : Nat) (peerId : Nat)
    (fromState toState : PeerState) : Option Bool × SyncPeers :=
  match lookupKey sp.peers peerId with
  | none => (none, sp)
  | some info =>
    if info.state = fromState then
      (some true, { sp with peers := setKey sp.peers peerId (info.updateState toState now) })
    else (some false, sp)

/-- `SyncPeers::update_state_force`: overwrite the state field only. -/
def SyncPeers.updateStateForce (sp : SyncPeers) (peerId : Nat) (state : PeerState) :
    Option PeerState × SyncPeers :=
  match lookupKey sp.peers peerId with
  | none => (none, sp)
  | some info => (some info.state, { sp with peers := setKey sp.peers peerId { info with state := state } })

/-- One iteration of the sweep loop in `SyncPeers::transition` for the
entry `kv`: the `bad_peers` contribution and the effects it emits.
`info.since.elapsed()` is `now - since` (`Instant::elapsed`, never negative). -/
def transitionStep (sp : SyncPeers) (now : Nat) (kv : Nat × PeerInfo) :
    List Nat × List Effect :=
  match kv.2.state with
  | .found | .connected => ([], [])
  | .connecting =>
    if sp.config.peerConnectTimeout ≤ now - kv.2.since then
      ([kv.1],
        (if sp.hasCtx then [.report kv.1 .lowToleranceError "Dial timeout"] else []) ++
          (if sp.hasFileLocationCache then [.cacheRemove kv.1] else []))
    else ([], [])
  | .disconnecting =>
    if sp.config.peerDisconnectTimeout ≤ now - kv.2.since then ([kv.1], []) else ([], [])
  | .disconnected => ([kv.1], [])

/-- `SyncPeers::transition`: sweep all peers collecting `bad_peers` and
emitting the reports/cache removals, then remove every bad peer.  The
returned trace lists the effects in program order: all sweep effects,
then the removals. -/
def SyncPeers.transition (sp : SyncPeers) (now : Nat) : SyncPeers × List Effect :=
  let swept := sp.peers.map (transitionStep sp now)
  let badPeers := (swept.map Prod.fst).flatten
  let effects := (swept.map Prod.snd).flatten
  ({ sp with peers := sp.peers.filter fun kv => decide (kv.1 ∉ badPeers) },
    effects ++ badPeers.map Effect.removePeer)

/-! ## Association-list lemmas -/

theorem lookupKey_nil {β : Type} (k : Nat) : lookupKey ([] : List (Nat × β)) k = none := rfl

theorem lookupKey_cons {β : Type} (k2 : Nat) (v2 : β) (rest : List (Nat × β)) (k : Nat) :
    lookupKey ((k2, v2) :: rest) k = if k2 = k then some v2 else lookupKey rest k := rfl

theorem lookupKey_cons_self {β : Type} (k : Nat) (v : β) (rest : List (Nat × β)) :
    lookupKey ((k, v) :: rest) k = some v := by
  rw [lookupKey_cons, if_pos rfl]

theorem lookupKey_cons_ne {β : Type} {k2 k : Nat} {v2 : β} {rest : List (Nat × β)}
    (h : k2 ≠ k) : lookupKey ((k2, v2) :: rest) k = lookupKey rest k := by
  rw [lookupKey_cons, if_neg h]

theorem setKey_nil {β : Type} (k : Nat) (v : β) :
    setKey ([] : List (Nat × β)) k v = [(k, v)] := rfl

theorem setKey_cons {β : Type} (k2 : Nat) (v2 : β) (rest : List (Nat × β)) (k : Nat) (v : β) :
    setKey ((k2, v2) :: rest) k v
      = if k2 = k then (k, v) :: rest else (k2, v2) :: setKey rest k v := rfl

theorem lookupKey_setKey_self {β : Type} (m : List (Nat × β)) (k : Nat) (v : β) :
    lookupKey (setKey m k v) k = some v := by
  induction m with
  | nil => rw [setKey_nil, lookupKey_cons_self]
  | cons kv rest ih =>
    obtain ⟨k2, v2⟩ := kv
    rw [setKey_cons]
    by_cases h : k2 = k
    · rw [if_pos h, lookupKey_cons_self]
    · rw [if_neg h, lookupKey_cons_ne h, ih]

theorem lookupKey_setKey_ne {β : Type} (m : List (Nat × β)) (k k2 : Nat) (v : β)
    (h : k2 ≠ k) : lookupKey (setKey m k v) k2 = lookupKey m k2 := by
  induction m with
  | nil => rw [setKey_nil, lookupKey_cons_ne (Ne.symm h)]
  | cons kv rest ih =>
    obtain ⟨k3, v3⟩ := kv
    rw [setKey_cons]
    by_cases h3 : k3 = k
    · subst h3
      rw [if_pos rfl, lookupKey_cons_ne (Ne.symm h), lookupKey_cons_ne (Ne.symm h)]
    · rw [if_neg h3, lookupKey_cons, lookupKey_cons, ih]

theorem setKey_eq_of_lookupKey {β : Type} (m : List (Nat × β)) (k : Nat) (v : β)
    (h : lookupKey m k = some v) : setKey m k v = m := by
  induction m with
  | nil => exact absurd h (by rw [lookupKey_nil]; exact fun he => Option.noConfusion he)
  | cons kv rest ih =>
    obtain ⟨k2, v2⟩ := kv
    rw [setKey_cons]
    by_cases h2 : k2 = k
    · subst h2
      rw [lookupKey_cons_self] at h
      injection h with h
      rw [if_pos rfl, h]
    · rw [lookupKey_cons_ne h2] at h
      rw [if_neg h2, ih h]

theorem lookupKey_of_mem {β : Type} {m : List (Nat × β)} {k : Nat} {v : β}
    (hnd : (m.map Prod.fst).Nodup) (h : (k, v) ∈ m) : lookupKey m k = some v := by
  induction m with
  | nil => simp at h
  | cons kv rest ih =>
    obtain ⟨k2, v2⟩ := kv
    simp only [List.map_cons, List.nodup_cons] at hnd
    rcases List.mem_cons.mp h with h1 | h1
    · injection h1 with hk hv
      subst hk
      subst hv
      rw [lookupKey_cons_self]
    · have hk : k2 ≠ k := fun he => hnd.1 (List.mem_map.mpr ⟨(k, v), h1, by rw [he]⟩)
      rw [lookupKey_cons_ne hk, ih hnd.2 h1]

theorem mem_of_lookupKey {β : Type} {m : List (Nat × β)} {k : Nat} {v : β}
    (h : lookupKey m k = some v) : (k, v) ∈ m := by
  induction m with
  | nil => exact absurd h (by rw [lookupKey_nil]; exact fun he => Option.noConfusion he)
  | cons kv rest ih =>
    obtain ⟨k2, v2⟩ := kv
    by_cases h2 : k2 = k
    · subst h2
      rw [lookupKey_cons_self] at h
      injection h with h
      rw [← h]
      exact List.mem_cons_self ..
    · rw [lookupKey_cons_ne h2] at h
      exact List.mem_cons_of_mem _ (ih h)

theorem lookupKey_filter_none {β : Type} (m : List (Nat × β)) (f : Nat × β → Bool)
    (k : Nat) (h : lookupKey m k = none) : lookupKey (m.filter f) k = none := by
  induction m with
  | nil => rw [List.filter_nil, lookupKey_nil]
  | cons kv rest ih =>
    obtain ⟨k2, v2⟩ := kv
    by_cases h2 : k2 = k
    · subst h2
      rw [lookupKey_cons_self] at h
      exact absurd h (fun he => Option.noConfusion he)
    · rw [lookupKey_cons_ne h2] at h
      rw [List.filter_cons]
      by_cases hf : f (k2, v2) = true
      · rw [if_pos hf, lookupKey_cons_ne h2, ih h]
      · rw [if_neg hf, ih h]

theorem lookupKey_filter {β : Type} (m : List (Nat × β)) (f : Nat × β → Bool)
    (k : Nat) (v : β) (hnd : (m.map Prod.fst).Nodup) (h : lookupKey m k = some v) :
    lookupKey (m.filter f) k = if f (k, v) then some v else none := by
  induction m with
  | nil => exact absurd h (by rw [lookupKey_nil]; exact fun he => Option.noConfusion he)
  | cons kv rest ih =>
    obtain ⟨k2, v2⟩ := kv
    simp only [List.map_cons, List.nodup_cons] at hnd
    by_cases h2 : k2 = k
    · subst h2
      rw [lookupKey_cons_self] at h
      injection h with h
      subst h
      have hrest : lookupKey rest k2 = none := by
        cases hl : lookupKey rest k2 with
        | none => rfl
        | some w => exact absurd (List.mem_map.mpr ⟨(k2, w), mem_of_lookupKey hl, rfl⟩) hnd.1
      rw [List.filter_cons]
      by_cases hf : f (k2, v2) = true
      · rw [if_pos hf, lookupKey_cons_self, if_pos hf]
      · rw [if_neg hf, lookupKey_filter_none rest f k2 hrest, if_neg hf]
    · rw [lookupKey_cons_ne h2] at h
      rw [List.filter_cons]
      by_cases hf : f (k2, v2) = true
      · rw [if_pos hf, lookupKey_cons_ne h2, ih hnd.2 h]
      · rw [if_neg hf, ih hnd.2 h]

/-! ## `Limiter::from_quota` -/

theorem fromQuota_ok_inv {q : Quota} {l : Limiter} (h : Limiter.fromQuota q = .ok l) :
    l.tau = q.replenishAllEvery ∧ l.t = q.replenishAllEvery / q.maxTokens ∧
      l.tatPerKey = [] ∧ 0 < q.maxTokens ∧ 0 < q.replenishAllEvery ∧
      q.replenishAllEvery < u64Size := by
  simp only [Limiter.fromQuota] at h
  split_ifs at h with h1 h2 h3 h4
  injection h with h
  subst h
  exact ⟨rfl, rfl, rfl, Nat.pos_of_ne_zero h1, Nat.pos_of_ne_zero h2, h4⟩

/-- C3 (amended): `Limiter::from_quota` succeeds exactly when
`max_tokens ≥ 1`, the replenish period is positive, and the period's
nanosecond count fits in a `u64`; a derived per-token time `t = 0` is
accepted, contrary to the original claim. -/
theorem fromQuota_ok_iff (q : Quota) :
    (∃ l, Limiter.fromQuota q = .ok l) ↔
      0 < q.maxTokens ∧ 0 < q.replenishAllEvery ∧ q.replenishAllEvery < u64Size := by
  constructor
  · rintro ⟨l, h⟩
    exact ⟨(fromQuota_ok_inv h).2.2.2.1, (fromQuota_ok_inv h).2.2.2.2⟩
  · rintro ⟨h1, h2, h3⟩
    refine ⟨⟨q.replenishAllEvery, q.replenishAllEvery / q.maxTokens, []⟩, ?_⟩
    unfold Limiter.fromQuota
    rw [if_neg (Nat.pos_iff_ne_zero.mp h1), if_neg (Nat.pos_iff_ne_zero.mp h2),
      if_pos (lt_of_le_of_lt (Nat.div_le_self ..) h3), if_pos h3]

/-- C3 (counterexample): the quota `max_tokens = 2`, period `= 1 ns` has
derived `t = 1 / 2 = 0`, yet `from_quota` succeeds instead of returning
an error. -/
theorem fromQuota_accepts_t_zero :
    Limiter.fromQuota ⟨1, 2⟩ = .ok ⟨1, 0, []⟩ ∧ (1 : Nat) / 2 = 0 :=
  ⟨rfl, rfl⟩

/-- C3 (witness): the amended iff applied at the quota `(5 ns, 1 token)`. -/
theorem fromQuota_ok_iff_witness : ∃ l, Limiter.fromQuota ⟨5, 1⟩ = .ok l :=
  (fromQuota_ok_iff ⟨5, 1⟩).mpr (by decide)

/-! ## C2: requests of `max_tokens + 1` tokens -/

/-- C2 (counterexample): for the quota `max_tokens = 3`, period `= 5 ns`
(derived `t = 1`, `tau = 5`), a request of `3 + 1 = 4` tokens on a fresh
bucket is admitted (`Ok`), not rejected as `TooLarge`: its cost
`t * 4 = 4` does not exceed `tau = 5`. -/
theorem allows_nPlusOne_not_tooLarge :
    Limiter.fromQuota ⟨5, 3⟩ = .ok ⟨5, 1, []⟩ ∧
      ((⟨5, 1, []⟩ : Limiter).allows 0 0 (3 + 1)).1 = .ok :=
  ⟨rfl, rfl⟩

/-- C2 (amended): a request of `max_tokens + 1` tokens is rejected as
`TooLarge` in every TAT state, provided `max_tokens` divides the
period's nanosecond count (so that `t * max_tokens = tau` exactly) and
`tau + t` does not wrap around `u64`. -/
theorem allows_nPlusOne_tooLarge (q : Quota) (l : Limiter) (m : List (Nat × Nat))
    (now key : Nat) (hq : Limiter.fromQuota q = .ok l)
    (hdvd : q.maxTokens ∣ q.replenishAllEvery) (hov : l.tau + l.t < u64Size) :
    (({ l with tatPerKey := m } : Limiter).allows now key (q.maxTokens + 1)).1
      = .tooLarge := by
  obtain ⟨htau, ht, -, hn, hp, -⟩ := fromQuota_ok_inv hq
  have hcost : l.t * (q.maxTokens + 1) = l.tau + l.t := by
    rw [Nat.mul_add, Nat.mul_one, ht, Nat.div_mul_cancel hdvd, htau]
  have ht1 : 1 ≤ l.t := by
    rw [ht]
    exact Nat.one_le_div_iff hn |>.mpr (Nat.le_of_dvd hp hdvd)
  have hlt : l.tau < l.t * (q.maxTokens + 1) % u64Size := by
    rw [hcost, Nat.mod_eq_of_lt hov]
    exact Nat.lt_add_of_pos_right ht1
  unfold Limiter.allows
  rw [if_pos hlt]

/-- C2 (witness): the amended theorem at the quota `(6 ns, 3 tokens)`
(`t = 2`, `tau = 6`), an empty TAT map and `now = key = 0`. -/
theorem allows_nPlusOne_tooLarge_witness :
    (({ (⟨6, 2, []⟩ : Limiter) with tatPerKey := ([] : List (Nat × Nat)) } : Limiter).allows
        0 0 (3 + 1)).1 = .tooLarge :=
  allows_nPlusOne_tooLarge ⟨6, 3⟩ ⟨6, 2, []⟩ [] 0 0 rfl (by decide) (by decide)

/-! ## C10: wrap-around cost computation -/

/-- C10: the cost in `Limiter::allows` is the wrapping product
`t * tokens mod 2^64`.  For the validly constructed quota
`(4 ns, 1 token)` (`t = 4 ≥ 2`, `tau = 4`) and `tokens = 2^62`, the
mathematical cost `4 * 2^62 = 2^64` exceeds `tau`, yet the wrapped cost
is `0`, so the request is admitted instead of returning `TooLarge`. -/
theorem allows_wrapAround_admits :
    Limiter.fromQuota ⟨4, 1⟩ = .ok ⟨4, 4, []⟩ ∧
      2 ≤ (⟨4, 4, []⟩ : Limiter).t ∧
      (⟨4, 4, []⟩ : Limiter).tau < (⟨4, 4, []⟩ : Limiter).t * 2 ^ 62 ∧
      ((⟨4, 4, []⟩ : Limiter).allows 0 0 (2 ^ 62)).1 = .ok :=
  ⟨rfl, by decide, by norm_num, rfl⟩

/-! ## C1: `RPCRateLimiter::prune` skips the AnswerFile bucket -/

/-- C1: starting from a rate limiter whose six buckets each hold key `1`
with `TAT = 0`, pruning at elapsed time `5 ns` empties the Ping, Status,
Goodbye, DataByHash and GetChunks buckets but leaves the stale key in
the AnswerFile bucket (`TAT = 0 < 5`): the source's `prune` never calls
`answer_file_rl.prune`. -/
theorem rpcPrune_retains_answerFile_key :
    let lStale : Limiter := ⟨10, 2, [(1, 0)]⟩
    let r : RPCRateLimiter := ⟨lStale, lStale, lStale, lStale, lStale, lStale⟩
    lookupKey (r.prune 5).answerFileRl.tatPerKey 1 = some 0 ∧ (0 : Nat) < 5 ∧
      lookupKey (r.prune 5).pingRl.tatPerKey 1 = none ∧
      lookupKey (r.prune 5).statusRl.tatPerKey 1 = none ∧
      lookupKey (r.prune 5).goodbyeRl.tatPerKey 1 = none ∧
      lookupKey (r.prune 5).dataByHashRl.tatPerKey 1 = none ∧
      lookupKey (r.prune 5).getChunksRl.tatPerKey 1 = none := by
  exact ⟨rfl, by decide, rfl, rfl, rfl, rfl, rfl⟩

/-! ## C4: functional characterization of `Limiter::allows` -/

theorem allows_def (l : Limiter) (now key tokens : Nat) :
    l.allows now key tokens =
      if l.tau < l.t * tokens % u64Size then (.tooLarge, l)
      else
        if now % u64Size <
            ((lookupKey l.tatPerKey key).getD (now % u64Size) + l.t * tokens % u64Size)
              % u64Size - l.tau then
          (.tooSoon
              (((lookupKey l.tatPerKey key).getD (now % u64Size) + l.t * tokens % u64Size)
                % u64Size - l.tau - now % u64Size),
            { l with tatPerKey := (setKey l.tatPerKey key
                ((lookupKey l.tatPerKey key).getD (now % u64Size))) })
        else
          (.ok, { l with tatPerKey := (setKey
              (setKey l.tatPerKey key ((lookupKey l.tatPerKey key).getD (now % u64Size)))
              key ((max (now % u64Size) ((lookupKey l.tatPerKey key).getD (now % u64Size))
                + l.t * tokens % u64Size) % u64Size)) }) := rfl

/-- C4: for `cost = t * tokens ≤ tau` (and the `u64` quantities in
range), `allows(now, key, tokens)` treats an absent key as `TAT = now`;
with `earliest = saturating_sub(TAT + cost, tau)` it returns
`TooSoon(earliest - now)` leaving the limiter unchanged when
`now < earliest`, and otherwise returns `Ok` and sets the key's TAT to
`max(now, TAT) + cost`, all other keys unchanged. -/
theorem allows_gcra_spec (l : Limiter) (now key tokens : Nat)
    (hnow : now < u64Size) (htau : l.tau < u64Size)
    (hcost : l.t * tokens ≤ l.tau)
    (hov : max now ((lookupKey l.tatPerKey key).getD now) + l.t * tokens < u64Size) :
    (now < (lookupKey l.tatPerKey key).getD now + l.t * tokens - l.tau →
        l.allows now key tokens =
          (.tooSoon ((lookupKey l.tatPerKey key).getD now + l.t * tokens - l.tau - now), l))
    ∧ (¬ now < (lookupKey l.tatPerKey key).getD now + l.t * tokens - l.tau →
        (l.allows now key tokens).1 = .ok
        ∧ lookupKey (l.allows now key tokens).2.tatPerKey key =
            some (max now ((lookupKey l.tatPerKey key).getD now) + l.t * tokens)
        ∧ ∀ k2, k2 ≠ key →
            lookupKey (l.allows now key tokens).2.tatPerKey k2 = lookupKey l.tatPerKey k2) := by
  have hm : now % u64Size = now := Nat.mod_eq_of_lt hnow
  have hcm : l.t * tokens % u64Size = l.t * tokens :=
    Nat.mod_eq_of_lt (lt_of_le_of_lt hcost htau)
  have hsum : (lookupKey l.tatPerKey key).getD now + l.t * tokens < u64Size :=
    lt_of_le_of_lt (Nat.add_le_add_right (le_max_right now _) _) hov
  have hsm : ((lookupKey l.tatPerKey key).getD now + l.t * tokens) % u64Size
      = (lookupKey l.tatPerKey key).getD now + l.t * tokens := Nat.mod_eq_of_lt hsum
  have hnl : ¬ l.tau < l.t * tokens % u64Size := by
    rw [hcm]
    exact not_lt.mpr hcost
  rw [allows_def, if_neg hnl, hm, hcm, hsm, Nat.mod_eq_of_lt hov]
  constructor
  · intro hlt
    rw [if_pos hlt]
    cases hl : lookupKey l.tatPerKey key with
    | none =>
      exfalso
      rw [hl] at hlt
      simp only [Option.getD_none] at hlt
      omega
    | some v =>
      simp only [Option.getD_some]
      rw [setKey_eq_of_lookupKey _ _ _ hl]
  · intro hge
    rw [if_neg hge]
    refine ⟨rfl, lookupKey_setKey_self .., fun k2 hk2 => ?_⟩
    rw [lookupKey_setKey_ne _ _ _ _ hk2, lookupKey_setKey_ne _ _ _ _ hk2]

/-- C4 (witness): limiter `tau = 10, t = 2` with `TAT[5] = 7`; at
`now = 8` a 3-token request (`cost = 6`, `earliest = 3 ≤ 8`) is `Ok` and
sets `TAT[5] = max(8, 7) + 6 = 14`. -/
theorem allows_gcra_spec_witness :
    ((⟨10, 2, [(5, 7)]⟩ : Limiter).allows 8 5 3).1 = .ok ∧
      lookupKey ((⟨10, 2, [(5, 7)]⟩ : Limiter).allows 8 5 3).2.tatPerKey 5 = some 14 := by
  have h := (allows_gcra_spec ⟨10, 2, [(5, 7)]⟩ 8 5 3 (by decide) (by decide) (by decide)
    (by decide)).2 (by decide)
  exact ⟨h.1, h.2.1.trans (by decide)⟩

/-! ## C9: prune-equivalence -/

theorem prune_tau (l : Limiter) (timeLimit : Nat) : (l.prune timeLimit).tau = l.tau := rfl

theorem prune_t (l : Limiter) (timeLimit : Nat) : (l.prune timeLimit).t = l.t := rfl

theorem prune_tatPerKey (l : Limiter) (timeLimit : Nat) :
    (l.prune timeLimit).tatPerKey
      = l.tatPerKey.filter fun kv => decide (timeLimit % u64Size ≤ kv.2) := rfl

/-- C9: for a key present with `TAT < now`, pruning at `now` and then
calling `allows(now, key, tokens)` yields the same verdict as calling
`allows` without pruning, and on an `Ok` verdict the key's resulting TAT
is the same. -/
theorem prune_allows_equiv (l : Limiter) (now key tokens tat0 : Nat)
    (hnd : (l.tatPerKey.map Prod.fst).Nodup)
    (h : lookupKey l.tatPerKey key = some tat0)
    (hlt : tat0 < now) (hnow : now < u64Size) :
    ((l.prune now).allows now key tokens).1 = (l.allows now key tokens).1
    ∧ ((l.allows now key tokens).1 = .ok →
        lookupKey ((l.prune now).allows now key tokens).2.tatPerKey key
          = lookupKey (l.allows now key tokens).2.tatPerKey key) := by
  have hU : 0 < u64Size := by norm_num [u64Size]
  have hm : now % u64Size = now := Nat.mod_eq_of_lt hnow
  have hlk : lookupKey (l.prune now).tatPerKey key = none := by
    rw [prune_tatPerKey, lookupKey_filter _ _ _ _ hnd h]
    simp [hm, not_le.mpr hlt]
  by_cases hc : l.tau < l.t * tokens % u64Size
  · constructor
    · rw [allows_def, allows_def]
      simp only [prune_tau, prune_t]
      rw [if_pos hc, if_pos hc]
    · intro habs
      rw [allows_def, if_pos hc] at habs
      exact absurd habs (by simp)
  · have hcU : l.t * tokens % u64Size < u64Size := Nat.mod_lt _ hU
    have htat : tat0 < u64Size := lt_trans hlt hnow
    have hne1 : ¬ now < (tat0 + l.t * tokens % u64Size) % u64Size - l.tau := by
      rcases Nat.lt_or_ge (tat0 + l.t * tokens % u64Size) u64Size with hab | hab
      · rw [Nat.mod_eq_of_lt hab]
        omega
      · rw [Nat.mod_eq_sub_mod hab, Nat.mod_eq_of_lt (by omega)]
        omega
    have hne2 : ¬ now < (now + l.t * tokens % u64Size) % u64Size - l.tau := by
      rcases Nat.lt_or_ge (now + l.t * tokens % u64Size) u64Size with hab | hab
      · rw [Nat.mod_eq_of_lt hab]
        omega
      · rw [Nat.mod_eq_sub_mod hab, Nat.mod_eq_of_lt (by omega)]
        omega
    have eqU : l.allows now key tokens =
        (.ok, { l with tatPerKey := (setKey (setKey l.tatPerKey key tat0) key
          ((max now tat0 + l.t * tokens % u64Size) % u64Size)) }) := by
      rw [allows_def, if_neg hc, hm, h]
      simp only [Option.getD_some]
      rw [if_neg hne1]
    have eqP : (l.prune now).allows now key tokens =
        (.ok, { l.prune now with tatPerKey := (setKey (setKey (l.prune now).tatPerKey key now)
          key ((max now now + l.t * tokens % u64Size) % u64Size)) }) := by
      rw [allows_def, hm, hlk]
      simp only [prune_tau, prune_t, Option.getD_none]
      rw [if_neg hc, if_neg hne2]
    constructor
    · rw [eqU, eqP]
    · intro _
      rw [eqU, eqP]
      simp only
      rw [lookupKey_setKey_self, lookupKey_setKey_self, Nat.max_self,
        Nat.max_eq_left (Nat.le_of_lt hlt)]

/-- C9 (witness): limiter `tau = 10, t = 2` with stale `TAT[5] = 3 < now = 4`:
pruning at 4 then asking for 3 tokens gives the same `Ok` verdict and the
same resulting `TAT[5]` as asking without pruning. -/
theorem prune_allows_equiv_witness :
    (((⟨10, 2, [(5, 3)]⟩ : Limiter).prune 4).allows 4 5 3).1
        = ((⟨10, 2, [(5, 3)]⟩ : Limiter).allows 4 5 3).1 ∧
      lookupKey (((⟨10, 2, [(5, 3)]⟩ : Limiter).prune 4).allows 4 5 3).2.tatPerKey 5
        = lookupKey ((⟨10, 2, [(5, 3)]⟩ : Limiter).allows 4 5 3).2.tatPerKey 5 := by
  have hp := prune_allows_equiv ⟨10, 2, [(5, 3)]⟩ 4 5 3 3 (by decide) (by decide) (by decide)
    (by decide)
  exact ⟨hp.1, hp.2 (by decide)⟩

/-! ## C6: `add_new_peer_with_config` -/

/-- C6: adding a peer already present with an equal shard config returns
`false` and leaves the table unchanged; otherwise it returns `true` and
the peer is recorded with state `Found`, the given address and shard
config, and `since = now`.  Consequently a second identical add returns
`false`, leaves the table as after the first add, and the state stays
`Found`. -/
theorem addNewPeer_spec (sp : SyncPeers) (now now2 peerId addr cfg : Nat) :
    (∀ info, lookupKey sp.peers peerId = some info → info.shardConfig = cfg →
        sp.addNewPeerWithConfig now peerId addr cfg = (false, sp))
    ∧ ((∀ info, lookupKey sp.peers peerId = some info → info.shardConfig ≠ cfg) →
        (sp.addNewPeerWithConfig now peerId addr cfg).1 = true
        ∧ lookupKey (sp.addNewPeerWithConfig now peerId addr cfg).2.peers peerId
            = some ⟨addr, .found, cfg, now⟩)
    ∧ ((sp.addNewPeerWithConfig now peerId addr cfg).1 = true →
        ((sp.addNewPeerWithConfig now peerId addr cfg).2.addNewPeerWithConfig now2 peerId addr cfg)
            = (false, (sp.addNewPeerWithConfig now peerId addr cfg).2)
        ∧ (lookupKey (sp.addNewPeerWithConfig now peerId addr cfg).2.peers peerId).map
            PeerInfo.state = some .found) := by
  cases hl : lookupKey sp.peers peerId with
  | none =>
    refine ⟨fun info hinfo => Option.noConfusion hinfo, fun _ => ?_, fun _ => ?_⟩
    · constructor
      · simp [SyncPeers.addNewPeerWithConfig, hl]
      · simp only [SyncPeers.addNewPeerWithConfig, hl]
        exact lookupKey_setKey_self ..
    · have hset : lookupKey (setKey sp.peers peerId
          (⟨addr, .found, cfg, now⟩ : PeerInfo)) peerId = some ⟨addr, .found, cfg, now⟩ :=
        lookupKey_setKey_self ..
      simp [SyncPeers.addNewPeerWithConfig, hl, hset]
  | some info =>
    by_cases hcfg : info.shardConfig = cfg
    · refine ⟨fun info2 hinfo2 _ => ?_, fun hno => ?_, fun htrue => ?_⟩
      · simp [SyncPeers.addNewPeerWithConfig, hl, hcfg]
      · exact absurd hcfg (hno info rfl)
      · exact absurd htrue (by simp [SyncPeers.addNewPeerWithConfig, hl, hcfg])
    · refine ⟨fun info2 hinfo2 heq2 => ?_, fun _ => ?_, fun _ => ?_⟩
      · have h3 : info2 = info := by
          injection hinfo2 with h2
          exact h2.symm
        exact absurd (h3 ▸ heq2) hcfg
      · constructor
        · simp [SyncPeers.addNewPeerWithConfig, hl, hcfg]
        · simp only [SyncPeers.addNewPeerWithConfig, hl, if_neg hcfg]
          exact lookupKey_setKey_self ..
      · have hset : lookupKey (setKey sp.peers peerId
            (⟨addr, .found, cfg, now⟩ : PeerInfo)) peerId = some ⟨addr, .found, cfg, now⟩ :=
          lookupKey_setKey_self ..
        simp [SyncPeers.addNewPeerWithConfig, hl, hcfg, hset]

/-- C6 (witness): on the empty table, adding peer 1 (addr 2, shard
config 3) at time 7 returns `true`; re-adding at time 9 returns `false`,
leaves the table unchanged, and the state is still `Found`. -/
theorem addNewPeer_spec_witness :
    ((⟨⟨5, 5⟩, [], false, false⟩ : SyncPeers).addNewPeerWithConfig 7 1 2 3).1 = true ∧
      (((⟨⟨5, 5⟩, [], false, false⟩ : SyncPeers).addNewPeerWithConfig 7 1 2 3).2.addNewPeerWithConfig
          9 1 2 3)
        = (false, ((⟨⟨5, 5⟩, [], false, false⟩ : SyncPeers).addNewPeerWithConfig 7 1 2 3).2) ∧
      (lookupKey ((⟨⟨5, 5⟩, [], false, false⟩ : SyncPeers).addNewPeerWithConfig 7 1 2 3).2.peers
          1).map PeerInfo.state = some .found := by
  have h := addNewPeer_spec ⟨⟨5, 5⟩, [], false, false⟩ 7 9 1 2 3
  have h1 := (h.2.1 fun info hinfo => Option.noConfusion hinfo).1
  exact ⟨h1, (h.2.2 h1).1, (h.2.2 h1).2⟩

/-! ## C7: `update_state` -/

/-- C7: `update_state(peer, from, to)` returns `None` leaving the table
unchanged when the peer is unknown; returns `Some(false)` leaving the
table unchanged when the current state differs from `from`; and returns
`Some(true)`, sets the state to `to` and `since` to now (address and
shard config kept) when the current state equals `from`. -/
theorem updateState_spec (sp : SyncPeers) (now peerId : Nat) (fromState toState : PeerState) :
    (lookupKey sp.peers peerId = none →
        sp.updateState now peerId fromState toState = (none, sp))
    ∧ (∀ info, lookupKey sp.peers peerId = some info → info.state ≠ fromState →
        sp.updateState now peerId fromState toState = (some false, sp))
    ∧ (∀ info, lookupKey sp.peers peerId = some info → info.state = fromState →
        (sp.updateState now peerId fromState toState).1 = some true
        ∧ lookupKey (sp.updateState now peerId fromState toState).2.peers peerId
            = some ⟨info.addr, toState, info.shardConfig, now⟩) := by
  refine ⟨fun hl => ?_, fun info hl hne => ?_, fun info hl heq => ?_⟩
  · simp [SyncPeers.updateState, hl]
  · simp [SyncPeers.updateState, hl, hne]
  · constructor
    · simp [SyncPeers.updateState, hl, heq]
    · simp only [SyncPeers.updateState, hl, if_pos heq]
      exact lookupKey_setKey_self ..

/-- C7 (witness): with peer 1 recorded as `Found`, a `Found → Connecting`
transition at time 7 returns `Some(true)` and re-stamps `since`; the
mismatched case and the unknown-peer case are exercised through the same
table. -/
theorem updateState_spec_witness :
    (((⟨⟨5, 5⟩, [(1, ⟨2, .found, 3, 0⟩)], false, false⟩ : SyncPeers).updateState
          7 1 .found .connecting).1 = some true
        ∧ lookupKey ((⟨⟨5, 5⟩, [(1, ⟨2, .found, 3, 0⟩)], false, false⟩ : SyncPeers).updateState
            7 1 .found .connecting).2.peers 1 = some ⟨2, .connecting, 3, 7⟩)
      ∧ (⟨⟨5, 5⟩, [(1, ⟨2, .found, 3, 0⟩)], false, false⟩ : SyncPeers).updateState
          7 1 .connected .connecting
        = (some false, ⟨⟨5, 5⟩, [(1, ⟨2, .found, 3, 0⟩)], false, false⟩)
      ∧ (⟨⟨5, 5⟩, [(1, ⟨2, .found, 3, 0⟩)], false, false⟩ : SyncPeers).updateState
          7 9 .found .connecting
        = (none, ⟨⟨5, 5⟩, [(1, ⟨2, .found, 3, 0⟩)], false, false⟩) := by
  have h := updateState_spec ⟨⟨5, 5⟩, [(1, ⟨2, .found, 3, 0⟩)], false, false⟩ 7 1 .found
    .connecting
  have h2 := updateState_spec ⟨⟨5, 5⟩, [(1, ⟨2, .found, 3, 0⟩)], false, false⟩ 7 1 .connected
    .connecting
  have h3 := updateState_spec ⟨⟨5, 5⟩, [(1, ⟨2, .found, 3, 0⟩)], false, false⟩ 7 9 .found
    .connecting
  exact ⟨h.2.2 ⟨2, .found, 3, 0⟩ rfl rfl, h2.2.1 ⟨2, .found, 3, 0⟩ rfl (by decide),
    h3.1 rfl⟩

/-! ## C8: `update_state_force` -/

/-- C8: `update_state_force(peer, new_state)` returns `None` and changes
nothing for an unknown peer; for a known peer it returns the previous
state and overwrites only the state field, leaving `since`, the address
and the shard config unchanged. -/
theorem updateStateForce_spec (sp : SyncPeers) (peerId : Nat) (newState : PeerState) :
    (lookupKey sp.peers peerId = none →
        sp.updateStateForce peerId newState = (none, sp))
    ∧ (∀ info, lookupKey sp.peers peerId = some info →
        (sp.updateStateForce peerId newState).1 = some info.state
        ∧ lookupKey (sp.updateStateForce peerId newState).2.peers peerId
            = some ⟨info.addr, newState, info.shardConfig, info.since⟩
        ∧ ∀ k2, k2 ≠ peerId →
            lookupKey (sp.updateStateForce peerId newState).2.peers k2
              = lookupKey sp.peers k2) := by
  refine ⟨fun hl => ?_, fun info hl => ⟨?_, ?_, fun k2 hk2 => ?_⟩⟩
  · simp [SyncPeers.updateStateForce, hl]
  · simp [SyncPeers.updateStateForce, hl]
  · simp only [SyncPeers.updateStateForce, hl]
    exact lookupKey_setKey_self ..
  · simp only [SyncPeers.updateStateForce, hl]
    exact lookupKey_setKey_ne _ _ _ _ hk2

/-- C8 (witness): forcing peer 1 from `Found` to `Connecting` returns the
previous state `Found` and keeps `since = 4`, `addr = 2`,
`shard config = 3` unchanged. -/
theorem updateStateForce_spec_witness :
    ((⟨⟨5, 5⟩, [(1, ⟨2, .found, 3, 4⟩)], false, false⟩ : SyncPeers).updateStateForce
        1 .connecting).1 = some .found
      ∧ lookupKey ((⟨⟨5, 5⟩, [(1, ⟨2, .found, 3, 4⟩)], false, false⟩ : SyncPeers).updateStateForce
          1 .connecting).2.peers 1 = some ⟨2, .connecting, 3, 4⟩ := by
  have h := (updateStateForce_spec ⟨⟨5, 5⟩, [(1, ⟨2, .found, 3, 4⟩)], false, false⟩ 1
    .connecting).2 ⟨2, .found, 3, 4⟩ rfl
  exact ⟨h.1, h.2.1⟩

/-! ## C5: `transition` -/

/-- Occurrence count of an effect in a trace. -/
def countE (e : Effect) : List Effect → Nat
  | [] => 0
  | e2 :: rest => (if e2 = e then 1 else 0) + countE e rest

theorem countE_nil (e : Effect) : countE e [] = 0 := rfl

theorem countE_cons (e e2 : Effect) (rest : List Effect) :
    countE e (e2 :: rest) = (if e2 = e then 1 else 0) + countE e rest := rfl

theorem countE_append (e : Effect) (l1 l2 : List Effect) :
    countE e (l1 ++ l2) = countE e l1 + countE e l2 := by
  induction l1 with
  | nil => rw [List.nil_append, countE_nil, Nat.zero_add]
  | cons e2 rest ih => rw [List.cons_append, countE_cons, countE_cons, ih, Nat.add_assoc]

theorem countE_eq_zero_of_not_mem (e : Effect) (l : List Effect) (h : e ∉ l) :
    countE e l = 0 := by
  induction l with
  | nil => rfl
  | cons e2 rest ih =>
    have hne : ¬ e2 = e := fun he => h (by rw [← he]; exact List.mem_cons_self ..)
    rw [countE_cons, if_neg hne, ih fun he2 => h (List.mem_cons_of_mem _ he2)]

theorem mem_transitionStep_fst (sp : SyncPeers) (now : Nat) (kv : Nat × PeerInfo) (q : Nat)
    (h : q ∈ (transitionStep sp now kv).1) : q = kv.1 := by
  obtain ⟨p, a, st, cfg, si⟩ := kv
  cases st <;> simp only [transitionStep] at h
  · simp at h
  · split at h
    · simpa using h
    · simp at h
  · simp at h
  · split at h
    · simpa using h
    · simp at h
  · simpa using h

theorem mem_transitionStep_snd (sp : SyncPeers) (now : Nat) (kv : Nat × PeerInfo) (e : Effect)
    (h : e ∈ (transitionStep sp now kv).2) :
    (∃ a r, e = Effect.report kv.1 a r) ∨ e = Effect.cacheRemove kv.1 := by
  obtain ⟨p, a, st, cfg, si⟩ := kv
  cases st <;> simp only [transitionStep] at h
  · simp at h
  · split at h
    · simp only [List.mem_append] at h
      rcases h with h | h
      · split at h
        · left
          exact ⟨.lowToleranceError, "Dial timeout", by simpa using h⟩
        · simp at h
      · split at h
        · right
          simpa using h
        · simp at h
    · simp at h
  · simp at h
  · split at h <;> simp at h
  · simp at h

theorem countE_flatten_step (sp : SyncPeers) (now : Nat) (L : List (Nat × PeerInfo))
    (p : Nat) (info : PeerInfo) (e : Effect)
    (hnd : (L.map Prod.fst).Nodup) (hmem : (p, info) ∈ L)
    (hkey : ∀ kv : Nat × PeerInfo, e ∈ (transitionStep sp now kv).2 → kv.1 = p) :
    countE e (((L.map (transitionStep sp now)).map Prod.snd).flatten)
      = countE e (transitionStep sp now (p, info)).2 := by
  induction L with
  | nil => simp at hmem
  | cons kv rest ih =>
    simp only [List.map_cons, List.nodup_cons] at hnd
    rw [List.map_cons, List.map_cons, List.flatten_cons, countE_append]
    rcases List.mem_cons.mp hmem with heq | hmem2
    · subst heq
      have hz : countE e (((rest.map (transitionStep sp now)).map Prod.snd).flatten) = 0 := by
        apply countE_eq_zero_of_not_mem
        intro hmem3
        obtain ⟨l2, hl2, hel⟩ := List.mem_flatten.mp hmem3
        obtain ⟨x, hx, rfl⟩ := List.mem_map.mp hl2
        obtain ⟨kv2, hkv2, rfl⟩ := List.mem_map.mp hx
        exact hnd.1 (List.mem_map.mpr ⟨kv2, hkv2, hkey kv2 hel⟩)
      rw [hz, Nat.add_zero]
    · have hne : kv.1 ≠ p := by
        intro he
        exact hnd.1 (List.mem_map.mpr ⟨(p, info), hmem2, by rw [he]⟩)
      have hz : countE e (transitionStep sp now kv).2 = 0 :=
        countE_eq_zero_of_not_mem _ _ fun hmem4 => hne (hkey kv hmem4)
      rw [hz, ih hnd.2 hmem2, Nat.zero_add]

theorem mem_badPeers_iff (sp : SyncPeers) (now : Nat) (p : Nat) (info : PeerInfo)
    (hnd : (sp.peers.map Prod.fst).Nodup) (hmem : (p, info) ∈ sp.peers) :
    p ∈ (((sp.peers.map (transitionStep sp now)).map Prod.fst).flatten)
      ↔ p ∈ (transitionStep sp now (p, info)).1 := by
  constructor
  · intro h
    obtain ⟨l2, hl2, hel⟩ := List.mem_flatten.mp h
    obtain ⟨x, hx, rfl⟩ := List.mem_map.mp hl2
    obtain ⟨kv, hkv, rfl⟩ := List.mem_map.mp hx
    have h1 : p = kv.1 := mem_transitionStep_fst sp now kv p hel
    have h2 : lookupKey sp.peers p = some info := lookupKey_of_mem hnd hmem
    have h3 : lookupKey sp.peers p = some kv.2 := by
      apply lookupKey_of_mem hnd
      rw [h1]
      exact hkv
    have h4 : info = kv.2 := by
      have h5 := h2.symm.trans h3
      injection h5
    rw [show (p, info) = kv from by rw [h1, h4]]
    exact hel
  · intro h
    apply List.mem_flatten.mpr
    refine ⟨(transitionStep sp now (p, info)).1, ?_, h⟩
    apply List.mem_map.mpr
    refine ⟨transitionStep sp now (p, info), ?_, rfl⟩
    exact List.mem_map.mpr ⟨(p, info), hmem, rfl⟩

theorem transition_peers (sp : SyncPeers) (now : Nat) :
    (sp.transition now).1.peers = sp.peers.filter fun kv =>
      decide (kv.1 ∉ (((sp.peers.map (transitionStep sp now)).map Prod.fst).flatten)) := rfl

theorem transition_trace (sp : SyncPeers) (now : Nat) :
    (sp.transition now).2
      = ((sp.peers.map (transitionStep sp now)).map Prod.snd).flatten
        ++ ((((sp.peers.map (transitionStep sp now)).map Prod.fst).flatten).map
            Effect.removePeer) := rfl

/-- C5: one `transition()` sweep removes every `Disconnected` peer, every
`Connecting` peer whose elapsed time reached `peer_connect_timeout`
(with exactly one `LowToleranceError` "Dial timeout" report when a
network context is present and exactly one cache removal when a
file-location cache is bound), and every `Disconnecting` peer whose
elapsed time reached `peer_disconnect_timeout`; every other peer keeps
its record unchanged; and in the effect trace every report precedes
every removal. -/
theorem transition_spec (sp : SyncPeers) (now p : Nat) (info : PeerInfo)
    (hnd : (sp.peers.map Prod.fst).Nodup) (hmem : (p, info) ∈ sp.peers) :
    (info.state = .disconnected → lookupKey (sp.transition now).1.peers p = none)
    ∧ (info.state = .connecting → sp.config.peerConnectTimeout ≤ now - info.since →
        lookupKey (sp.transition now).1.peers p = none
        ∧ countE (.report p .lowToleranceError "Dial timeout") (sp.transition now).2
            = (if sp.hasCtx then 1 else 0)
        ∧ countE (.cacheRemove p) (sp.transition now).2
            = (if sp.hasFileLocationCache then 1 else 0))
    ∧ (info.state = .disconnecting → sp.config.peerDisconnectTimeout ≤ now - info.since →
        lookupKey (sp.transition now).1.peers p = none)
    ∧ ((info.state = .found ∨ info.state = .connected
        ∨ (info.state = .connecting ∧ now - info.since < sp.config.peerConnectTimeout)
        ∨ (info.state = .disconnecting ∧ now - info.since < sp.config.peerDisconnectTimeout)) →
        lookupKey (sp.transition now).1.peers p = some info)
    ∧ (∃ rs ms, (sp.transition now).2 = rs ++ ms
        ∧ (∀ e ∈ rs, ∀ q, e ≠ Effect.removePeer q)
        ∧ (∀ e ∈ ms, ∃ q, e = Effect.removePeer q)) := by
  have hlk : lookupKey sp.peers p = some info := lookupKey_of_mem hnd hmem
  have hbad := mem_badPeers_iff sp now p info hnd hmem
  have hfilter := lookupKey_filter sp.peers
    (fun kv => decide
      (kv.1 ∉ (((sp.peers.map (transitionStep sp now)).map Prod.fst).flatten)))
    p info hnd hlk
  have hrem : p ∈ (transitionStep sp now (p, info)).1 →
      lookupKey (sp.transition now).1.peers p = none := by
    intro hin
    have hin2 := hbad.mpr hin
    have hcond : ¬ ((fun kv : Nat × PeerInfo => decide
        (kv.1 ∉ (((sp.peers.map (transitionStep sp now)).map Prod.fst).flatten))) (p, info)
          = true) := by
      simp only [decide_eq_true_eq]
      exact fun hno => hno hin2
    rw [transition_peers, hfilter, if_neg hcond]
  have hkeep : (transitionStep sp now (p, info)).1 = [] →
      lookupKey (sp.transition now).1.peers p = some info := by
    intro hnin
    have hpn : p ∉ (((sp.peers.map (transitionStep sp now)).map Prod.fst).flatten) := by
      intro hc
      have h2 := hbad.mp hc
      rw [hnin] at h2
      simp at h2
    have hcond : ((fun kv : Nat × PeerInfo => decide
        (kv.1 ∉ (((sp.peers.map (transitionStep sp now)).map Prod.fst).flatten))) (p, info)
          = true) := by
      simp only [decide_eq_true_eq]
      exact hpn
    rw [transition_peers, hfilter, if_pos hcond]
  refine ⟨?_, ?_, ?_, ?_, ?_⟩
  · intro hs
    exact hrem (by simp [transitionStep, hs])
  · intro hs htime
    refine ⟨hrem (by simp [transitionStep, hs, htime]), ?_, ?_⟩
    · rw [transition_trace, countE_append]
      have h0 : countE (.report p .lowToleranceError "Dial timeout")
          (((((sp.peers.map (transitionStep sp now)).map Prod.fst).flatten).map
            Effect.removePeer)) = 0 := by
        apply countE_eq_zero_of_not_mem
        intro hmem2
        obtain ⟨q, hq, habs⟩ := List.mem_map.mp hmem2
        exact Effect.noConfusion habs
      have hkey : ∀ kv : Nat × PeerInfo,
          (Effect.report p .lowToleranceError "Dial timeout") ∈ (transitionStep sp now kv).2 →
            kv.1 = p := by
        intro kv hel
        rcases mem_transitionStep_snd sp now kv _ hel with ⟨a, r, heq⟩ | heq
        · injection heq with h1 h2 h3
          exact h1.symm
        · exact Effect.noConfusion heq
      rw [h0, Nat.add_zero, countE_flatten_step sp now sp.peers p info _ hnd hmem hkey]
      simp only [transitionStep, hs, htime, if_true, Prod.snd]
      by_cases hct : sp.hasCtx <;> by_cases hcc : sp.hasFileLocationCache <;>
        simp [hct, hcc, htime, countE_append, countE]
    · rw [transition_trace, countE_append]
      have h0 : countE (.cacheRemove p)
          (((((sp.peers.map (transitionStep sp now)).map Prod.fst).flatten).map
            Effect.removePeer)) = 0 := by
        apply countE_eq_zero_of_not_mem
        intro hmem2
        obtain ⟨q, hq, habs⟩ := List.mem_map.mp hmem2
        exact Effect.noConfusion habs
      have hkey : ∀ kv : Nat × PeerInfo,
          (Effect.cacheRemove p) ∈ (transitionStep sp now kv).2 → kv.1 = p := by
        intro kv hel
        rcases mem_transitionStep_snd sp now kv _ hel with ⟨a, r, heq⟩ | heq
        · exact Effect.noConfusion heq
        · injection heq with h1
          exact h1.symm
      rw [h0, Nat.add_zero, countE_flatten_step sp now sp.peers p info _ hnd hmem hkey]
      by_cases hct : sp.hasCtx <;> by_cases hcc : sp.hasFileLocationCache <;>
        simp [transitionStep, hs, hct, hcc, htime, countE_append, countE]
  · intro hs htime
    exact hrem (by simp [transitionStep, hs, htime])
  · intro hdisj
    apply hkeep
    rcases hdisj with hs | hs | ⟨hs, htime⟩ | ⟨hs, htime⟩
    · simp [transitionStep, hs]
    · simp [transitionStep, hs]
    · simp [transitionStep, hs, not_le.mpr htime]
    · simp [transitionStep, hs, not_le.mpr htime]
  · refine ⟨((sp.peers.map (transitionStep sp now)).map Prod.snd).flatten,
      ((((sp.peers.map (transitionStep sp now)).map Prod.fst).flatten).map Effect.removePeer),
      transition_trace sp now, ?_, ?_⟩
    · intro e he q
      obtain ⟨l2, hl2, hel⟩ := List.mem_flatten.mp he
      obtain ⟨x, hx, rfl⟩ := List.mem_map.mp hl2
      obtain ⟨kv, hkv, rfl⟩ := List.mem_map.mp hx
      rcases mem_transitionStep_snd sp now kv e hel with ⟨a, r, rfl⟩ | rfl <;>
        exact fun habs => Effect.noConfusion habs
    · intro e he
      obtain ⟨q, hq, rfl⟩ := List.mem_map.mp he
      exact ⟨q, rfl⟩

/-- C5 (witness): a table holding only peer 1 in `Connecting` since
time 2, with a network context and a file-location cache bound and a
connect timeout of 5: at `now = 9` the sweep removes the peer, reports
it exactly once, and removes its cache entry exactly once. -/
theorem transition_spec_witness :
    lookupKey ((⟨⟨5, 7⟩, [(1, ⟨0, .connecting, 0, 2⟩)], true, true⟩ : SyncPeers).transition
        9).1.peers 1 = none
      ∧ countE (.report 1 .lowToleranceError "Dial timeout")
          ((⟨⟨5, 7⟩, [(1, ⟨0, .connecting, 0, 2⟩)], true, true⟩ : SyncPeers).transition 9).2 = 1
      ∧ countE (.cacheRemove 1)
          ((⟨⟨5, 7⟩, [(1, ⟨0, .connecting, 0, 2⟩)], true, true⟩ : SyncPeers).transition 9).2
        = 1 := by
  have h := (transition_spec ⟨⟨5, 7⟩, [(1, ⟨0, .connecting, 0, 2⟩)], true, true⟩ 9 1
    ⟨0, .connecting, 0, 2⟩ (by decide) (by decide)).2.1 rfl (by decide)
  exact ⟨h.1, h.2.1.trans rfl, h.2.2.trans rfl⟩

end ZgStorage
